import Mathlib

/-
Verification of the easy-args single-header C argument parser
(src/includes/easyargs.h) against its natural-language specification.

The library is a macro-driven parser generator: a declaration set of
required, optional and boolean argument descriptors is expanded into a
value container (args_t), a default builder (make_default_args), a parser
(parse_args) and a help renderer (print_help).  The shallow embedding
below represents a declaration set as three lists of descriptors; the
macro-expanded per-declaration code becomes iteration over those lists.
Machine integers are modelled as Nat/Int with the explicit LP64 bounds
used by the source through limits.h (int 32-bit, long / long long /
size_t 64-bit).  C strings are Lean strings; a possibly-NULL const char*
is an Option String.  Functions that print diagnostics and return a value
are modelled as pure functions returning the value together with the
success flag; the warning lines printed by the walk of parse_args are
collected in a list.
-/

namespace EasyArgs

/-- Values stored in the generated args_t container.  vStr none models a
NULL char* (what easyargs_parse_str returns on failure, and the zero value
of a char* field); the integer families are collapsed to Int/Nat since the
descriptor's converter already enforces the width-class range.  Floating
point fields are excluded from the container model (see the scalar
converter section, where the float/double converters are modelled
generically over the value domain produced by strtof/strtod). -/
inductive EAValue where
  | vStr (s : Option String)
  | vChar (c : Char)
  | vInt (i : Int)
  | vNat (n : Nat)
deriving DecidableEq

/-- The generated args_t struct: one field per descriptor, keyed by the
descriptor's storage name.  Value fields (required/optional descriptors)
and _Bool fields (boolean descriptors) live in separate maps, mirroring
the distinct field types in the struct. -/
structure ArgsT where
  vals : String → EAValue
  bools : String → Bool

/-- Writing a value field of the container (args->name = v). -/
def setVal (a : ArgsT) (n : String) (v : EAValue) : ArgsT :=
  { a with vals := fun m => if m = n then v else a.vals m }

/-- Writing a boolean field of the container (args->name = 1 or 0). -/
def setBool (a : ArgsT) (n : String) (b : Bool) : ArgsT :=
  { a with bools := fun m => if m = n then b else a.bools m }

/-- A REQUIRED_ARG(type, name, label, description, parser) descriptor.
zero is the value (type) 0 that make_default_args assigns to the field;
parser models the converter applied to the (non-null) token argv[i],
returning the converted value together with the ok flag.  On failure the
C converters return the zero value of the type, and parse_args stores
that returned value before checking ok; the model keeps that behaviour by
always storing the returned value. -/
structure ReqArg where
  name : String
  label : String
  description : String
  zero : EAValue
  parser : String → EAValue × Bool

/-- An OPTIONAL_ARG(type, name, default, flag, label, description,
formatter, parser) descriptor. -/
structure OptArg where
  name : String
  default : EAValue
  flag : String
  label : String
  description : String
  formatter : String
  parser : String → EAValue × Bool

/-- A BOOLEAN_ARG(name, flag, description) descriptor. -/
structure BoolArg where
  name : String
  flag : String
  description : String

/-- The declaration set: the REQUIRED_ARGS, OPTIONAL_ARGS and
BOOLEAN_ARGS macro lists, in declared order. -/
structure DeclSet where
  required : List ReqArg
  optional : List OptArg
  booleans : List BoolArg

/-- All storage names of the declaration set, in struct field order. -/
def DeclSet.allNames (d : DeclSet) : List String :=
  d.required.map ReqArg.name ++ d.optional.map OptArg.name ++ d.booleans.map BoolArg.name

/-- All flag tokens of the declaration set (optional then boolean). -/
def DeclSet.allFlags (d : DeclSet) : List String :=
  d.optional.map OptArg.flag ++ d.booleans.map BoolArg.flag

/-- The authoring invariants the spec requires of a declaration set:
storage names pairwise distinct (otherwise the generated struct would not
compile) and flag tokens pairwise distinct. -/
def DeclSet.Wellformed (d : DeclSet) : Prop :=
  d.allNames.Nodup ∧ d.allFlags.Nodup

instance (d : DeclSet) : Decidable d.Wellformed := by
  unfold DeclSet.Wellformed; infer_instance

/- ### Scalar converters (lines 53-218 of easyargs.h) -/

/-- The character class tested by isspace in the C locale: space, \t, \n,
vertical tab, form feed, \r. -/
def isSpaceC (c : Char) : Bool :=
  c == ' ' || c == '\t' || c == '\n' || c == Char.ofNat 11 || c == Char.ofNat 12 || c == '\r'

/-- easyargs_skip_leading: advance past leading isspace characters. -/
def skipLeading : List Char → List Char
  | [] => []
  | c :: cs => if isSpaceC c then skipLeading cs else c :: cs

/-- Value of a hexadecimal digit character, if it is one. -/
def hexVal (c : Char) : Option Nat :=
  if '0' ≤ c ∧ c ≤ '9' then some (c.toNat - '0'.toNat)
  else if 'a' ≤ c ∧ c ≤ 'f' then some (c.toNat - 'a'.toNat + 10)
  else if 'A' ≤ c ∧ c ≤ 'F' then some (c.toNat - 'A'.toNat + 10)
  else none

/-- Value of c as a digit in the given base (8, 10 or 16), if valid. -/
def digitVal (base : Nat) (c : Char) : Option Nat :=
  match hexVal c with
  | some v => if v < base then some v else none
  | none => none

/-- Consume the longest prefix of digits in the given base, accumulating
the (unbounded) magnitude; returns the magnitude and the unconsumed
suffix (the end pointer of the scan). -/
def readDigits (base : Nat) : List Char → Nat → Nat × List Char
  | [], acc => (acc, [])
  | c :: cs, acc =>
    match digitVal base c with
    | some v => readDigits base cs (acc * base + v)
    | none => (acc, c :: cs)

/-- The optional sign accepted by strtoull/strtoll. -/
def readSign : List Char → Bool × List Char
  | '-' :: t => (true, t)
  | '+' :: t => (false, t)
  | t => (false, t)

/-- Result of the C strtoull/strtoll subject-sequence scan with base 0:
the unbounded magnitude of the digit string, the sign, whether any
conversion was performed, and the end pointer.  When no conversion is
performed the end pointer is the original input. -/
structure ScanResult where
  magnitude : Nat
  neg : Bool
  converted : Bool
  rest : List Char
deriving DecidableEq

/-- The base-0 integer scan shared by strtoull and strtoll: skip
whitespace, optional sign, then a 0x/0X prefix selects base 16 (when a
hex digit follows), a leading 0 selects base 8, otherwise base 10. -/
def scanInteger (cs0 : List Char) : ScanResult :=
  let cs1 := skipLeading cs0
  let sr := readSign cs1
  let neg := sr.1
  match sr.2 with
  | '0' :: rest =>
    match rest with
    | c :: t =>
      if (c == 'x' || c == 'X') && (digitVal 16 (t.headD 'z')).isSome then
        let dr := readDigits 16 t 0
        ⟨dr.1, neg, true, dr.2⟩
      else
        let dr := readDigits 8 rest 0
        ⟨dr.1, neg, true, dr.2⟩
    | [] => ⟨0, neg, true, []⟩
  | other =>
    if (digitVal 10 (other.headD 'z')).isSome then
      let dr := readDigits 10 other 0
      ⟨dr.1, neg, true, dr.2⟩
    else
      ⟨0, false, false, cs0⟩

/-- ULLONG_MAX on the LP64 platforms targeted by the header. -/
def ULLONG_MAX : Nat := 2 ^ 64 - 1
/-- UINT_MAX (32-bit unsigned int). -/
def UINT_MAX : Nat := 2 ^ 32 - 1
/-- ULONG_MAX (64-bit unsigned long under LP64). -/
def ULONG_MAX : Nat := 2 ^ 64 - 1
/-- SIZE_MAX (64-bit size_t under LP64). -/
def SIZE_MAX : Nat := 2 ^ 64 - 1
/-- LLONG_MAX. -/
def LLONG_MAX : Int := 2 ^ 63 - 1
/-- LLONG_MIN. -/
def LLONG_MIN : Int := -(2 ^ 63)
/-- LONG_MAX (64-bit long under LP64). -/
def LONG_MAX : Int := 2 ^ 63 - 1
/-- LONG_MIN (64-bit long under LP64). -/
def LONG_MIN : Int := -(2 ^ 63)
/-- INT_MAX (32-bit int). -/
def INT_MAX : Int := 2 ^ 31 - 1
/-- INT_MIN (32-bit int). -/
def INT_MIN : Int := -(2 ^ 31)

/-- C strtoull with base 0: returns the converted value (ULLONG_MAX with
the ERANGE flag set when the magnitude overflows; negated modulo 2^64
when a minus sign was consumed) and the end pointer. -/
def strtoullModel (cs : List Char) : Nat × Bool × List Char :=
  let s := scanInteger cs
  if s.converted = false then (0, false, s.rest)
  else if s.magnitude > ULLONG_MAX then (ULLONG_MAX, true, s.rest)
  else
    let v := if s.neg then (2 ^ 64 - s.magnitude % 2 ^ 64) % 2 ^ 64 else s.magnitude
    (v, false, s.rest)

/-- C strtoll with base 0: returns the converted value clamped to
[LLONG_MIN, LLONG_MAX] with the ERANGE flag on overflow, and the end
pointer. -/
def strtollModel (cs : List Char) : Int × Bool × List Char :=
  let s := scanInteger cs
  if s.converted = false then (0, false, s.rest)
  else
    let v : Int := if s.neg then -(s.magnitude : Int) else (s.magnitude : Int)
    if v > LLONG_MAX then (LLONG_MAX, true, s.rest)
    else if v < LLONG_MIN then (LLONG_MIN, true, s.rest)
    else (v, false, s.rest)

/-- easyargs_parse_str: NULL or empty fails returning NULL, otherwise
succeeds returning the token unchanged. -/
def easyargs_parse_str : Option String → Option String × Bool
  | none => (none, false)
  | some s => if s = "" then (none, false) else (some s, true)

/-- easyargs_parse_char: succeeds only when the token is exactly one
character; on failure returns the char value 0. -/
def easyargs_parse_char : Option String → Char × Bool
  | none => (Char.ofNat 0, false)
  | some s =>
    match s.data with
    | [c] => (c, true)
    | _ => (Char.ofNat 0, false)

/-- The body generated by DEFINE_UNSIGNED_INTEGER_PARSER(funcname,
rettype, maxval, typename): reject NULL, skip leading whitespace, reject
empty, reject a leading minus sign, run strtoull with base 0, reject
unconsumed trailing characters, reject ERANGE or a value above maxval. -/
def easyargs_parse_unsigned (maxval : Nat) (text : Option String) : Nat × Bool :=
  match text with
  | none => (0, false)
  | some s =>
    match skipLeading s.data with
    | [] => (0, false)
    | c :: cs =>
      if c == '-' then (0, false)
      else
        let r := strtoullModel (c :: cs)
        if r.2.2 ≠ [] then (0, false)
        else if r.2.1 = true ∨ r.1 > maxval then (0, false)
        else (r.1, true)

/-- easyargs_parse_uint. -/
def easyargs_parse_uint : Option String → Nat × Bool := easyargs_parse_unsigned UINT_MAX
/-- easyargs_parse_ulong. -/
def easyargs_parse_ulong : Option String → Nat × Bool := easyargs_parse_unsigned ULONG_MAX
/-- easyargs_parse_ullong. -/
def easyargs_parse_ullong : Option String → Nat × Bool := easyargs_parse_unsigned ULLONG_MAX
/-- easyargs_parse_size_t. -/
def easyargs_parse_size_t : Option String → Nat × Bool := easyargs_parse_unsigned SIZE_MAX

/-- The body generated by DEFINE_SIGNED_INTEGER_PARSER(funcname, rettype,
minval, maxval, typename): reject NULL, skip leading whitespace, reject
empty, run strtoll with base 0, reject unconsumed trailing characters,
reject ERANGE or a value outside [minval, maxval]. -/
def easyargs_parse_signed (minval maxval : Int) (text : Option String) : Int × Bool :=
  match text with
  | none => (0, false)
  | some s =>
    match skipLeading s.data with
    | [] => (0, false)
    | c :: cs =>
      let r := strtollModel (c :: cs)
      if r.2.2 ≠ [] then (0, false)
      else if r.2.1 = true ∨ r.1 < minval ∨ r.1 > maxval then (0, false)
      else (r.1, true)

/-- easyargs_parse_int. -/
def easyargs_parse_int : Option String → Int × Bool := easyargs_parse_signed INT_MIN INT_MAX
/-- easyargs_parse_long. -/
def easyargs_parse_long : Option String → Int × Bool := easyargs_parse_signed LONG_MIN LONG_MAX
/-- easyargs_parse_llong. -/
def easyargs_parse_llong : Option String → Int × Bool := easyargs_parse_signed LLONG_MIN LLONG_MAX

/-- The shared shape of easyargs_parse_float and easyargs_parse_double,
generic over the value domain of the external strtof/strtod collaborator
(modelled as a scanner returning value, ERANGE flag and end pointer):
reject NULL, skip leading whitespace, reject empty, scan, reject ERANGE,
reject unconsumed trailing characters.  Every failure path returns the
zero value of the domain. -/
def easyargs_parse_floating {α : Type} (zero : α)
    (scanner : List Char → α × Bool × List Char) (text : Option String) : α × Bool :=
  match text with
  | none => (zero, false)
  | some s =>
    match skipLeading s.data with
    | [] => (zero, false)
    | c :: cs =>
      let r := scanner (c :: cs)
      if r.2.1 = true then (zero, false)
      else if r.2.2 ≠ [] then (zero, false)
      else (r.1, true)

/- ### make_default_args (lines 269-293) -/

/-- The container value before any designated initializer is applied.
Every field of args_t is listed by the initializer expansion, so this
base is always fully overwritten on declared names. -/
def argsInit : ArgsT := { vals := fun _ => EAValue.vInt 0, bools := fun _ => false }

/-- make_default_args: required fields are initialized to (type) 0,
optional fields to their declared default, boolean fields to 0, in struct
field order. -/
def make_default_args (d : DeclSet) : ArgsT :=
  let a1 := d.required.foldl (fun a r => setVal a r.name r.zero) argsInit
  let a2 := d.optional.foldl (fun a o => setVal a o.name o.default) a1
  d.booleans.foldl (fun a b => setBool a b.name false) a2

/- ### parse_args (lines 297-360) -/

/-- The observable outcome of parse_args: the returned int (success),
the container state, and the tokens named by the non-fatal
"Warning: Ignoring invalid argument" lines printed by the walk, in
print order. -/
structure ParseResult where
  success : Bool
  args : ArgsT
  warnings : List String

/-- The required-argument phase of parse_args: each REQUIRED_ARG expands
to storing parser(argv[i++]) into its field and returning failure when
the ok flag is unset.  Returns the container state together with the
unconsumed tokens (none signalling the early return 0).  The token list
is exhausted only when the arity guard of parse_args was violated, which
parse_args checks before this phase runs. -/
def parseRequired : List ReqArg → List String → ArgsT → ArgsT × Option (List String)
  | [], toks, args => (args, some toks)
  | r :: rs, toks, args =>
    match toks with
    | [] => (args, none)
    | t :: ts =>
      let p := r.parser t
      let args2 := setVal args r.name p.1
      if p.2 then parseRequired rs ts args2 else (args2, none)

/-- The post-required walk of parse_args (the for loop over
argv[1 + REQUIRED_ARG_COUNT .. argc-1]): each token is first compared
against the optional flags in declared order (a match requires a
following value token, converts it, stores it and advances past both
tokens), then against the boolean flags in declared order (a match sets
the field), and otherwise produces a non-fatal warning naming the
token. -/
def parseWalk (d : DeclSet) : List String → ArgsT → ParseResult
  | [], args => ⟨true, args, []⟩
  | tok :: rest, args =>
    match d.optional.find? (fun o => o.flag == tok) with
    | some o =>
      match rest with
      | [] => ⟨false, args, []⟩
      | v :: rest2 =>
        let p := o.parser v
        let args2 := setVal args o.name p.1
        if p.2 then parseWalk d rest2 args2 else ⟨false, args2, []⟩
    | none =>
      match d.booleans.find? (fun b => b.flag == tok) with
      | some b => parseWalk d rest (setBool args b.name true)
      | none =>
        let r := parseWalk d rest args
        ⟨r.success, r.args, tok :: r.warnings⟩

/-- parse_args(argc, argv, args): reject a NULL/empty argv, reject
argc < 1 + REQUIRED_ARG_COUNT, consume the required tokens in declared
order, then walk the remaining tokens.  argv is the full token sequence
including the program name at index 0; argc is its length; a NULL argv is
modelled as none (the !argc check is subsumed by the arity check since an
empty sequence is always shorter than 1 + REQUIRED_ARG_COUNT). -/
def parse_args (d : DeclSet) (argv : Option (List String)) (args : ArgsT) : ParseResult :=
  match argv with
  | none => ⟨false, args, []⟩
  | some l =>
    if l.length < 1 + d.required.length then ⟨false, args, []⟩
    else
      match parseRequired d.required (l.drop 1) args with
      | (args1, none) => ⟨false, args1, []⟩
      | (args1, some rest) => parseWalk d rest args1

/- ### print_help column width (lines 397-451) -/

/-- The left-column contribution of a required descriptor: strlen(label) + 2. -/
def reqWidth (r : ReqArg) : Nat := r.label.length + 2
/-- The left-column contribution of an optional descriptor:
strlen(flag) + 1 + strlen(label) + 2. -/
def optWidth (o : OptArg) : Nat := o.flag.length + 1 + o.label.length + 2
/-- The left-column contribution of a boolean descriptor: strlen(flag). -/
def boolWidth (b : BoolArg) : Nat := b.flag.length

/-- The max_width computation of print_help: starting from 0, each
descriptor's contribution replaces the running maximum when strictly
larger, in group order required, optional, boolean. -/
def help_max_width (d : DeclSet) : Nat :=
  let m1 := d.required.foldl (fun m r => if reqWidth r > m then reqWidth r else m) 0
  let m2 := d.optional.foldl (fun m o => if optWidth o > m then optWidth o else m) m1
  d.booleans.foldl (fun m b => if boolWidth b > m then boolWidth b else m) m2

/-- A run of n spaces, as produced by the %*s padding directive. -/
def spaces (n : Nat) : String := String.mk (List.replicate n ' ')

/-- The part of a required ARGUMENTS line between the four-space indent
and the four-space gap before the description:
"<" label ">" padded by %*s with width max_width - strlen(label) - 2. -/
def help_left_required (w : Nat) (r : ReqArg) : String :=
  "<" ++ r.label ++ ">" ++ spaces (w - (r.label.length + 2))

/-- The corresponding left part of an optional OPTIONS line:
flag " <" label ">" padded by %*s with width
max_width - strlen(label) - strlen(flag) - 3. -/
def help_left_optional (w : Nat) (o : OptArg) : String :=
  o.flag ++ " <" ++ o.label ++ ">" ++ spaces (w - (o.flag.length + 1 + o.label.length + 2))

/-- The corresponding left part of a boolean OPTIONS line: flag padded by
%*s with width max_width - strlen(flag). -/
def help_left_bool (w : Nat) (b : BoolArg) : String :=
  b.flag ++ spaces (w - b.flag.length)

/-- A full ARGUMENTS line for a required descriptor. -/
def help_required_line (w : Nat) (r : ReqArg) : String :=
  "    " ++ help_left_required w r ++ "    " ++ r.description

/-- A full OPTIONS line for an optional descriptor; fmtDefault is the
default value rendered through the descriptor's formatter by printf. -/
def help_optional_line (w : Nat) (o : OptArg) (fmtDefault : String) : String :=
  "    " ++ help_left_optional w o ++ "    " ++ o.description ++ " (default: " ++ fmtDefault ++ ")"

/-- A full OPTIONS line for a boolean descriptor. -/
def help_bool_line (w : Nat) (b : BoolArg) : String :=
  "    " ++ help_left_bool w b ++ "    " ++ b.description

/- ### Item decomposition of the post-required token tail -/

/-- One step of the post-required walk, classified: an optional flag with
its value token, a boolean flag, or a token matching no declared flag. -/
inductive Item where
  | opt (o : OptArg) (v : String)
  | bool (b : BoolArg)
  | unk (t : String)

/-- The token sequence generated by a list of walk items. -/
def itemTokens : List Item → List String
  | [] => []
  | .opt o v :: rest => o.flag :: v :: itemTokens rest
  | .bool b :: rest => b.flag :: itemTokens rest
  | .unk t :: rest => t :: itemTokens rest

/-- The tokens of the unknown items, in order: exactly the tokens named
by the warning lines the walk prints. -/
def unkTokens : List Item → List String
  | [] => []
  | .unk t :: rest => t :: unkTokens rest
  | .opt _ _ :: rest => unkTokens rest
  | .bool _ :: rest => unkTokens rest

/-- Whether an item is an unknown token. -/
def Item.isUnk : Item → Bool
  | .unk _ => true
  | _ => false

/-- The container update performed by one walk item. -/
def applyItem (args : ArgsT) : Item → ArgsT
  | .opt o v => setVal args o.name (o.parser v).1
  | .bool b => setBool args b.name true
  | .unk _ => args

/-- The container updates performed by a list of walk items, left to
right. -/
def applyItems (args : ArgsT) : List Item → ArgsT
  | [] => args
  | it :: rest => applyItems (applyItem args it) rest

/-- Validity of an item with respect to a declaration set: an optional
item is a declared optional descriptor whose converter accepts the value
token, a boolean item is a declared boolean descriptor, and an unknown
item is a token matching no declared flag. -/
def ItemValid (d : DeclSet) : Item → Prop
  | .opt o v => o ∈ d.optional ∧ (o.parser v).2 = true
  | .bool b => b ∈ d.booleans
  | .unk t => (∀ x ∈ d.optional, x.flag ≠ t) ∧ (∀ x ∈ d.booleans, x.flag ≠ t)

/-- Like ItemValid but without requiring the optional items' conversions
to succeed. -/
def ItemShape (d : DeclSet) : Item → Prop
  | .opt o _ => o ∈ d.optional
  | .bool b => b ∈ d.booleans
  | .unk t => (∀ x ∈ d.optional, x.flag ≠ t) ∧ (∀ x ∈ d.booleans, x.flag ≠ t)

/-- The container state after the required phase of parse_args has
consumed one token per required descriptor: each required field holds the
value returned by its converter on its token. -/
def applyReqs : ArgsT → List ReqArg → List String → ArgsT
  | args, r :: rs, t :: ts => applyReqs (setVal args r.name (r.parser t).1) rs ts
  | args, _, _ => args

/- ### A concrete declaration set for witnesses and counterexamples
(the spec's example scenarios: one required int count, one optional
string flag --name defaulting to "anon", one boolean flag --verbose). -/

/-- The int converter lifted into the container value domain. -/
def intConv (s : String) : EAValue × Bool :=
  let p := easyargs_parse_int (some s)
  (EAValue.vInt p.1, p.2)

/-- The string converter lifted into the container value domain. -/
def strConv (s : String) : EAValue × Bool :=
  let p := easyargs_parse_str (some s)
  (EAValue.vStr p.1, p.2)

/-- REQUIRED_INT_ARG(count, "count", "Number of items"). -/
def exReq : ReqArg :=
  { name := "count", label := "count", description := "Number of items",
    zero := EAValue.vInt 0, parser := intConv }

/-- OPTIONAL_STRING_ARG(name, "anon", "--name", "name", "Name to use"). -/
def exOptName : OptArg :=
  { name := "name", default := EAValue.vStr (some "anon"), flag := "--name",
    label := "name", description := "Name to use", formatter := "%s", parser := strConv }

/-- BOOLEAN_ARG(verbose, "--verbose", "Verbose output"). -/
def exBoolVerbose : BoolArg :=
  { name := "verbose", flag := "--verbose", description := "Verbose output" }

/-- The example declaration set. -/
def exDecl : DeclSet :=
  { required := [exReq], optional := [exOptName], booleans := [exBoolVerbose] }

/- ### Helper lemmas -/

theorem setVal_vals (a : ArgsT) (n : String) (v : EAValue) (m : String) :
    (setVal a n v).vals m = if m = n then v else a.vals m := rfl

theorem setVal_bools (a : ArgsT) (n : String) (v : EAValue) :
    (setVal a n v).bools = a.bools := rfl

theorem setBool_vals (a : ArgsT) (n : String) (b : Bool) :
    (setBool a n b).vals = a.vals := rfl

theorem setBool_bools (a : ArgsT) (n : String) (b : Bool) (m : String) :
    (setBool a n b).bools m = if m = n then b else a.bools m := rfl

/-- find? over a list with injectively mapped keys returns the member
itself when probed with its key. -/
theorem find_self_of_nodup {α : Type} (f : α → String) {l : List α} {x : α}
    (hnd : (l.map f).Nodup) (hx : x ∈ l) :
    l.find? (fun y => f y == f x) = some x := by
  induction l with
  | nil => cases hx
  | cons a t ih =>
    rcases List.mem_cons.mp hx with rfl | hx2
    · simp [List.find?]
    · have hmem : f x ∈ t.map f := List.mem_map_of_mem f hx2
      have hne : (f a == f x) = false := by
        simp only [beq_eq_false_iff_ne, ne_eq]
        intro h
        exact (List.nodup_cons.mp hnd).1 (h ▸ hmem)
      simp only [List.find?, hne]
      exact ih (List.nodup_cons.mp hnd).2 hx2

/-- Distinct storage names make the name projection injective on a
descriptor list. -/
theorem name_inj {α : Type} (f : α → String) {l : List α}
    (hnd : (l.map f).Nodup) {x y : α} (hx : x ∈ l) (hy : y ∈ l) (h : f x = f y) :
    x = y :=
  List.inj_on_of_nodup_map hnd hx hy h

namespace DeclSet

theorem Wellformed.req_names_nodup {d : DeclSet} (h : d.Wellformed) :
    (d.required.map ReqArg.name).Nodup := by
  have h1 := h.1
  rw [allNames, List.nodup_append, List.nodup_append] at h1
  exact h1.1.1

theorem Wellformed.opt_names_nodup {d : DeclSet} (h : d.Wellformed) :
    (d.optional.map OptArg.name).Nodup := by
  have h1 := h.1
  rw [allNames, List.nodup_append, List.nodup_append] at h1
  exact h1.1.2.1

theorem Wellformed.bool_names_nodup {d : DeclSet} (h : d.Wellformed) :
    (d.booleans.map BoolArg.name).Nodup := by
  have h1 := h.1
  rw [allNames, List.nodup_append, List.nodup_append] at h1
  exact h1.2.1

theorem Wellformed.req_opt_names_disjoint {d : DeclSet} (h : d.Wellformed)
    {r : ReqArg} {o : OptArg} (hr : r ∈ d.required) (ho : o ∈ d.optional) :
    r.name ≠ o.name := by
  have h1 := h.1
  rw [allNames, List.nodup_append, List.nodup_append] at h1
  intro heq
  exact h1.1.2.2 (List.mem_map_of_mem ReqArg.name hr)
    (heq ▸ List.mem_map_of_mem OptArg.name ho)

theorem Wellformed.req_bool_names_disjoint {d : DeclSet} (h : d.Wellformed)
    {r : ReqArg} {b : BoolArg} (hr : r ∈ d.required) (hb : b ∈ d.booleans) :
    r.name ≠ b.name := by
  have h1 := h.1
  rw [allNames, List.nodup_append, List.nodup_append] at h1
  intro heq
  exact h1.2.2 (List.mem_append_left _ (List.mem_map_of_mem ReqArg.name hr))
    (heq ▸ List.mem_map_of_mem BoolArg.name hb)

theorem Wellformed.opt_bool_names_disjoint {d : DeclSet} (h : d.Wellformed)
    {o : OptArg} {b : BoolArg} (ho : o ∈ d.optional) (hb : b ∈ d.booleans) :
    o.name ≠ b.name := by
  have h1 := h.1
  rw [allNames, List.nodup_append, List.nodup_append] at h1
  intro heq
  exact h1.2.2 (List.mem_append_right _ (List.mem_map_of_mem OptArg.name ho))
    (heq ▸ List.mem_map_of_mem BoolArg.name hb)

theorem Wellformed.opt_flags_nodup {d : DeclSet} (h : d.Wellformed) :
    (d.optional.map OptArg.flag).Nodup := by
  have h2 := h.2
  rw [allFlags, List.nodup_append] at h2
  exact h2.1

theorem Wellformed.bool_flags_nodup {d : DeclSet} (h : d.Wellformed) :
    (d.booleans.map BoolArg.flag).Nodup := by
  have h2 := h.2
  rw [allFlags, List.nodup_append] at h2
  exact h2.2.1

theorem Wellformed.opt_bool_flags_disjoint {d : DeclSet} (h : d.Wellformed)
    {o : OptArg} {b : BoolArg} (ho : o ∈ d.optional) (hb : b ∈ d.booleans) :
    o.flag ≠ b.flag := by
  have h2 := h.2
  rw [allFlags, List.nodup_append] at h2
  intro heq
  exact h2.2.2 (List.mem_map_of_mem OptArg.flag ho)
    (heq ▸ List.mem_map_of_mem BoolArg.flag hb)

theorem Wellformed.opt_name_inj {d : DeclSet} (h : d.Wellformed)
    {o o2 : OptArg} (ho : o ∈ d.optional) (ho2 : o2 ∈ d.optional)
    (hn : o.name = o2.name) : o = o2 :=
  name_inj OptArg.name h.opt_names_nodup ho ho2 hn

theorem Wellformed.bool_name_inj {d : DeclSet} (h : d.Wellformed)
    {b b2 : BoolArg} (hb : b ∈ d.booleans) (hb2 : b2 ∈ d.booleans)
    (hn : b.name = b2.name) : b = b2 :=
  name_inj BoolArg.name h.bool_names_nodup hb hb2 hn

end DeclSet

/- ### Lemmas about the required-argument phase -/

theorem applyReqs_bools (rs : List ReqArg) :
    ∀ (ts : List String) (args : ArgsT), (applyReqs args rs ts).bools = args.bools := by
  induction rs with
  | nil => intro ts args; rfl
  | cons r rs ih =>
    intro ts args
    cases ts with
    | nil => rfl
    | cons t ts => exact ih ts _

theorem applyReqs_vals_ne (rs : List ReqArg) (n : String) :
    (∀ r ∈ rs, r.name ≠ n) → ∀ (ts : List String) (args : ArgsT),
    (applyReqs args rs ts).vals n = args.vals n := by
  induction rs with
  | nil => intro _ ts args; rfl
  | cons r rs ih =>
    intro h ts args
    cases ts with
    | nil => rfl
    | cons t ts =>
      show (applyReqs (setVal args r.name (r.parser t).1) rs ts).vals n = args.vals n
      rw [ih (fun x hx => h x (List.mem_cons_of_mem r hx)) ts _]
      rw [setVal_vals, if_neg (fun hh => h r (List.mem_cons_self r rs) hh.symm)]

theorem applyReqs_vals_mem (rs : List ReqArg) (hnd : (rs.map ReqArg.name).Nodup)
    {r : ReqArg} {t : String} :
    ∀ (ts : List String), (r, t) ∈ rs.zip ts → ∀ args : ArgsT,
    (applyReqs args rs ts).vals r.name = (r.parser t).1 := by
  induction rs with
  | nil => intro ts hmem; simp at hmem
  | cons r0 rs ih =>
    intro ts hmem args
    cases ts with
    | nil => simp at hmem
    | cons t0 ts =>
      show (applyReqs (setVal args r0.name (r0.parser t0).1) rs ts).vals r.name = (r.parser t).1
      rw [List.zip_cons_cons] at hmem
      rcases List.mem_cons.mp hmem with heq | hmem2
      · injection heq with h1 h2
        subst h1; subst h2
        have hne : ∀ x ∈ rs, x.name ≠ r.name := by
          intro x hx heq2
          exact (List.nodup_cons.mp hnd).1 (heq2 ▸ List.mem_map_of_mem ReqArg.name hx)
        rw [applyReqs_vals_ne rs r.name hne ts _, setVal_vals, if_pos rfl]
      · exact ih (List.nodup_cons.mp hnd).2 ts hmem2 _

theorem parseRequired_append {rs : List ReqArg} {ts : List String}
    (h : List.Forall₂ (fun r t => (r.parser t).2 = true) rs ts) (rest : List String) :
    ∀ args : ArgsT, parseRequired rs (ts ++ rest) args = (applyReqs args rs ts, some rest) := by
  induction h with
  | nil => intro args; rfl
  | @cons r t rs ts hrt htl ih =>
    intro args
    show (if (r.parser t).2 then
        parseRequired rs (ts ++ rest) (setVal args r.name (r.parser t).1)
      else (setVal args r.name (r.parser t).1, none)) = _
    rw [if_pos hrt]
    exact ih _

/- ### Lemmas about the post-required walk -/

theorem parseWalk_cons_opt (d : DeclSet) (hwf : d.Wellformed) {o : OptArg}
    (ho : o ∈ d.optional) (v : String) (rest : List String) (args : ArgsT) :
    parseWalk d (o.flag :: v :: rest) args =
      if (o.parser v).2 then parseWalk d rest (setVal args o.name (o.parser v).1)
      else ⟨false, setVal args o.name (o.parser v).1, []⟩ := by
  have hf : d.optional.find? (fun y => y.flag == o.flag) = some o :=
    find_self_of_nodup OptArg.flag hwf.opt_flags_nodup ho
  simp only [parseWalk, hf]

theorem parseWalk_flag_last (d : DeclSet) (hwf : d.Wellformed) {o : OptArg}
    (ho : o ∈ d.optional) (args : ArgsT) :
    parseWalk d [o.flag] args = ⟨false, args, []⟩ := by
  have hf : d.optional.find? (fun y => y.flag == o.flag) = some o :=
    find_self_of_nodup OptArg.flag hwf.opt_flags_nodup ho
  simp only [parseWalk, hf]

theorem parseWalk_cons_bool (d : DeclSet) (hwf : d.Wellformed) {b : BoolArg}
    (hb : b ∈ d.booleans) (rest : List String) (args : ArgsT) :
    parseWalk d (b.flag :: rest) args = parseWalk d rest (setBool args b.name true) := by
  have hfo : d.optional.find? (fun y => y.flag == b.flag) = none := by
    rw [List.find?_eq_none]
    intro x hx
    simp only [beq_iff_eq]
    exact hwf.opt_bool_flags_disjoint hx hb
  have hfb : d.booleans.find? (fun y => y.flag == b.flag) = some b :=
    find_self_of_nodup BoolArg.flag hwf.bool_flags_nodup hb
  simp only [parseWalk, hfo, hfb]

theorem parseWalk_cons_unk (d : DeclSet) {t : String}
    (hopt : ∀ x ∈ d.optional, x.flag ≠ t) (hbool : ∀ x ∈ d.booleans, x.flag ≠ t)
    (rest : List String) (args : ArgsT) :
    parseWalk d (t :: rest) args =
      ⟨(parseWalk d rest args).success, (parseWalk d rest args).args,
        t :: (parseWalk d rest args).warnings⟩ := by
  have hfo : d.optional.find? (fun y => y.flag == t) = none := by
    rw [List.find?_eq_none]
    intro x hx
    simp only [beq_iff_eq]
    exact hopt x hx
  have hfb : d.booleans.find? (fun y => y.flag == t) = none := by
    rw [List.find?_eq_none]
    intro x hx
    simp only [beq_iff_eq]
    exact hbool x hx
  simp only [parseWalk, hfo, hfb]

theorem parseWalk_itemTokens (d : DeclSet) (hwf : d.Wellformed) (items : List Item) :
    (∀ it ∈ items, ItemValid d it) → ∀ args : ArgsT,
    parseWalk d (itemTokens items) args = ⟨true, applyItems args items, unkTokens items⟩ := by
  induction items with
  | nil => intro _ args; rfl
  | cons it rest ih =>
    intro hv args
    have hrest : ∀ x ∈ rest, ItemValid d x := fun x hx => hv x (List.mem_cons_of_mem it hx)
    cases it with
    | opt o v =>
      obtain ⟨ho, hok⟩ := hv (Item.opt o v) (List.mem_cons_self _ _)
      show parseWalk d (o.flag :: v :: itemTokens rest) args = _
      rw [parseWalk_cons_opt d hwf ho, if_pos hok]
      exact ih hrest _
    | bool b =>
      have hb : b ∈ d.booleans := hv (Item.bool b) (List.mem_cons_self _ _)
      show parseWalk d (b.flag :: itemTokens rest) args = _
      rw [parseWalk_cons_bool d hwf hb]
      exact ih hrest _
    | unk t =>
      obtain ⟨ho, hb⟩ := hv (Item.unk t) (List.mem_cons_self _ _)
      show parseWalk d (t :: itemTokens rest) args = _
      rw [parseWalk_cons_unk d ho hb, ih hrest args]
      rfl

theorem parseWalk_items_dangling (d : DeclSet) (hwf : d.Wellformed) (items : List Item)
    {o : OptArg} (ho : o ∈ d.optional) :
    (∀ it ∈ items, ItemValid d it) → ∀ args : ArgsT,
    parseWalk d (itemTokens items ++ [o.flag]) args
      = ⟨false, applyItems args items, unkTokens items⟩ := by
  induction items with
  | nil =>
    intro _ args
    exact parseWalk_flag_last d hwf ho args
  | cons it rest ih =>
    intro hv args
    have hrest : ∀ x ∈ rest, ItemValid d x := fun x hx => hv x (List.mem_cons_of_mem it hx)
    cases it with
    | opt o2 v =>
      obtain ⟨ho2, hok⟩ := hv (Item.opt o2 v) (List.mem_cons_self _ _)
      show parseWalk d (o2.flag :: v :: (itemTokens rest ++ [o.flag])) args = _
      rw [parseWalk_cons_opt d hwf ho2, if_pos hok]
      exact ih hrest _
    | bool b =>
      have hb : b ∈ d.booleans := hv (Item.bool b) (List.mem_cons_self _ _)
      show parseWalk d (b.flag :: (itemTokens rest ++ [o.flag])) args = _
      rw [parseWalk_cons_bool d hwf hb]
      exact ih hrest _
    | unk t =>
      obtain ⟨hto, htb⟩ := hv (Item.unk t) (List.mem_cons_self _ _)
      show parseWalk d (t :: (itemTokens rest ++ [o.flag])) args = _
      rw [parseWalk_cons_unk d hto htb, ih hrest args]
      rfl

theorem parseWalk_items_fail (d : DeclSet) (hwf : d.Wellformed) (items : List Item) :
    (∀ it ∈ items, ItemShape d it) →
    (∃ o v, Item.opt o v ∈ items ∧ (o.parser v).2 = false) →
    ∀ args : ArgsT, (parseWalk d (itemTokens items) args).success = false := by
  induction items with
  | nil =>
    intro _ hex args
    obtain ⟨o, v, hm, _⟩ := hex
    cases hm
  | cons it rest ih =>
    intro hs hex args
    have hrest : ∀ x ∈ rest, ItemShape d x := fun x hx => hs x (List.mem_cons_of_mem it hx)
    cases it with
    | opt o v =>
      have ho : o ∈ d.optional := hs (Item.opt o v) (List.mem_cons_self _ _)
      show (parseWalk d (o.flag :: v :: itemTokens rest) args).success = false
      rw [parseWalk_cons_opt d hwf ho]
      by_cases hok : (o.parser v).2 = true
      · rw [if_pos hok]
        apply ih hrest
        obtain ⟨o2, v2, hm, hfail⟩ := hex
        rcases List.mem_cons.mp hm with heq | hm2
        · injection heq with h1 h2
          subst h1; subst h2
          rw [hok] at hfail
          cases hfail
        · exact ⟨o2, v2, hm2, hfail⟩
      · rw [if_neg hok]
    | bool b =>
      have hb : b ∈ d.booleans := hs (Item.bool b) (List.mem_cons_self _ _)
      show (parseWalk d (b.flag :: itemTokens rest) args).success = false
      rw [parseWalk_cons_bool d hwf hb]
      apply ih hrest
      obtain ⟨o2, v2, hm, hfail⟩ := hex
      rcases List.mem_cons.mp hm with heq | hm2
      · cases heq
      · exact ⟨o2, v2, hm2, hfail⟩
    | unk t =>
      obtain ⟨hto, htb⟩ := hs (Item.unk t) (List.mem_cons_self _ _)
      show (parseWalk d (t :: itemTokens rest) args).success = false
      rw [parseWalk_cons_unk d hto htb]
      apply ih hrest
      obtain ⟨o2, v2, hm, hfail⟩ := hex
      rcases List.mem_cons.mp hm with heq | hm2
      · cases heq
      · exact ⟨o2, v2, hm2, hfail⟩

/- ### Lemmas about applyItems -/

theorem applyItems_append (l1 l2 : List Item) :
    ∀ args : ArgsT, applyItems args (l1 ++ l2) = applyItems (applyItems args l1) l2 := by
  induction l1 with
  | nil => intro args; rfl
  | cons it l1 ih => intro args; exact ih _

/-- Whether a walk item sets the boolean field named n. -/
def Item.setsBool (it : Item) (n : String) : Bool :=
  match it with
  | .bool b => b.name == n
  | _ => false

theorem applyItems_bools (items : List Item) (n : String) :
    ∀ args : ArgsT, (applyItems args items).bools n
      = (args.bools n || items.any (fun it => it.setsBool n)) := by
  induction items with
  | nil => intro args; simp [applyItems]
  | cons it rest ih =>
    intro args
    show (applyItems (applyItem args it) rest).bools n = _
    rw [ih _]
    cases it with
    | opt o v =>
      show ((setVal args o.name (o.parser v).1).bools n || _) = _
      rw [setVal_bools]
      simp [Item.setsBool]
    | bool b =>
      show ((setBool args b.name true).bools n || _) = _
      rw [setBool_bools]
      by_cases hb : n = b.name
      · subst hb
        simp [Item.setsBool]
      · rw [if_neg hb]
        have hbne : (b.name == n) = false := by
          simp only [beq_eq_false_iff_ne, ne_eq]
          exact fun hh => hb hh.symm
        simp [Item.setsBool, hbne]
    | unk t => simp [applyItem, Item.setsBool]

theorem applyItems_vals_ne (items : List Item) (n : String) :
    (∀ o v, Item.opt o v ∈ items → o.name ≠ n) → ∀ args : ArgsT,
    (applyItems args items).vals n = args.vals n := by
  induction items with
  | nil => intro _ args; rfl
  | cons it rest ih =>
    intro h args
    show (applyItems (applyItem args it) rest).vals n = args.vals n
    rw [ih (fun o v hm => h o v (List.mem_cons_of_mem it hm)) _]
    cases it with
    | opt o v =>
      show (setVal args o.name (o.parser v).1).vals n = args.vals n
      rw [setVal_vals, if_neg (fun hh => h o v (List.mem_cons_self _ _) hh.symm)]
    | bool b => rfl
    | unk t => rfl

theorem applyItems_vals_const (items : List Item) (n : String) (x : EAValue) :
    (∀ o v, Item.opt o v ∈ items → o.name = n → (o.parser v).1 = x) →
    ∀ args : ArgsT, args.vals n = x → (applyItems args items).vals n = x := by
  induction items with
  | nil => intro _ args ha; exact ha
  | cons it rest ih =>
    intro h args ha
    show (applyItems (applyItem args it) rest).vals n = x
    refine ih (fun o v hm hn => h o v (List.mem_cons_of_mem it hm) hn) _ ?_
    cases it with
    | opt o v =>
      show (setVal args o.name (o.parser v).1).vals n = x
      rw [setVal_vals]
      by_cases hn : n = o.name
      · rw [if_pos hn]
        exact h o v (List.mem_cons_self _ _) hn.symm
      · rw [if_neg hn]
        exact ha
    | bool b => exact ha
    | unk t => exact ha

theorem applyItems_filter_unk (items : List Item) :
    ∀ args : ArgsT, applyItems args items
      = applyItems args (items.filter (fun it => !it.isUnk)) := by
  induction items with
  | nil => intro args; rfl
  | cons it rest ih =>
    intro args
    cases it with
    | opt o v => exact ih _
    | bool b => exact ih _
    | unk t => exact ih _

theorem unkTokens_eq_nil (items : List Item) (h : ∀ it ∈ items, it.isUnk = false) :
    unkTokens items = [] := by
  induction items with
  | nil => rfl
  | cons it rest ih =>
    cases it with
    | opt o v => exact ih (fun x hx => h x (List.mem_cons_of_mem _ hx))
    | bool b => exact ih (fun x hx => h x (List.mem_cons_of_mem _ hx))
    | unk t =>
      have := h (Item.unk t) (List.mem_cons_self _ _)
      simp [Item.isUnk] at this

/- ### Commutation of walk items and permutation invariance -/

theorem setVal_comm (a : ArgsT) (n1 n2 : String) (x1 x2 : EAValue)
    (h : n1 ≠ n2 ∨ x1 = x2) :
    setVal (setVal a n1 x1) n2 x2 = setVal (setVal a n2 x2) n1 x1 := by
  cases a with
  | mk vals bools =>
    simp only [setVal]
    congr 1
    funext m
    by_cases h2 : m = n2
    · by_cases h1 : m = n1
      · rcases h with hne | heq
        · exact absurd (h1.symm.trans h2) hne
        · simp [h1, h2, heq]
      · have hn : ¬ n2 = n1 := fun hh => h1 (h2.trans hh)
        simp [h1, h2, hn]
    · by_cases h1 : m = n1
      · have hn : ¬ n1 = n2 := fun hh => h2 (h1.trans hh)
        simp [h1, h2, hn]
      · simp [h1, h2]

theorem setBool_comm (a : ArgsT) (n1 n2 : String) (b1 b2 : Bool)
    (h : n1 ≠ n2 ∨ b1 = b2) :
    setBool (setBool a n1 b1) n2 b2 = setBool (setBool a n2 b2) n1 b1 := by
  cases a with
  | mk vals bools =>
    simp only [setBool]
    congr 1
    funext m
    by_cases h2 : m = n2
    · by_cases h1 : m = n1
      · rcases h with hne | heq
        · exact absurd (h1.symm.trans h2) hne
        · simp [h1, h2, heq]
      · have hn : ¬ n2 = n1 := fun hh => h1 (h2.trans hh)
        simp [h1, h2, hn]
    · by_cases h1 : m = n1
      · have hn : ¬ n1 = n2 := fun hh => h2 (h1.trans hh)
        simp [h1, h2, hn]
      · simp [h1, h2]

theorem setVal_setBool_comm (a : ArgsT) (n1 n2 : String) (v : EAValue) (b : Bool) :
    setBool (setVal a n1 v) n2 b = setVal (setBool a n2 b) n1 v := rfl

theorem applyItem_comm {x y : Item}
    (hval : ∀ o v o2 v2, x = Item.opt o v → y = Item.opt o2 v2 → o.name = o2.name →
      (o.parser v).1 = (o2.parser v2).1)
    (args : ArgsT) :
    applyItem (applyItem args x) y = applyItem (applyItem args y) x := by
  cases x with
  | opt o v =>
    cases y with
    | opt o2 v2 =>
      by_cases hn : o.name = o2.name
      · exact setVal_comm args o.name o2.name _ _ (Or.inr (hval o v o2 v2 rfl rfl hn))
      · exact setVal_comm args o.name o2.name _ _ (Or.inl hn)
    | bool b => exact setVal_setBool_comm args o.name b.name _ true
    | unk t => rfl
  | bool b =>
    cases y with
    | opt o2 v2 => exact (setVal_setBool_comm args o2.name b.name _ true).symm
    | bool b2 => exact setBool_comm args b.name b2.name true true (Or.inr rfl)
    | unk t => rfl
  | unk t =>
    cases y with
    | opt o2 v2 => rfl
    | bool b2 => rfl
    | unk t2 => rfl

theorem applyItems_perm {l l2 : List Item} (hp : l.Perm l2) :
    (∀ o v o2 v2, Item.opt o v ∈ l → Item.opt o2 v2 ∈ l → o.name = o2.name →
      (o.parser v).1 = (o2.parser v2).1) →
    ∀ args : ArgsT, applyItems args l = applyItems args l2 := by
  induction hp with
  | nil => intro _ args; rfl
  | @cons x t1 t2 p ih =>
    intro hval args
    show applyItems (applyItem args x) t1 = applyItems (applyItem args x) t2
    exact ih (fun o v o2 v2 hm hm2 hn =>
      hval o v o2 v2 (List.mem_cons_of_mem x hm) (List.mem_cons_of_mem x hm2) hn) _
  | @swap x y t =>
    intro hval args
    show applyItems (applyItem (applyItem args y) x) t
        = applyItems (applyItem (applyItem args x) y) t
    have hc : applyItem (applyItem args y) x = applyItem (applyItem args x) y := by
      apply applyItem_comm
      intro o v o2 v2 hx hy hn
      have h1 : Item.opt o2 v2 ∈ y :: x :: t := by
        rw [← hy]
        exact List.mem_cons_of_mem _ (List.mem_cons_self _ _)
      have h2 : Item.opt o v ∈ y :: x :: t := by
        rw [← hx]
        exact List.mem_cons_self _ _
      exact hval o v o2 v2 h2 h1 hn
    rw [hc]
  | @trans l1 l2 l3 p q ih1 ih2 =>
    intro hval args
    rw [ih1 hval args]
    exact ih2 (fun o v o2 v2 hm hm2 hn =>
      hval o v o2 v2 (p.mem_iff.mpr hm) (p.mem_iff.mpr hm2) hn) args

/-- The number of tokens contributed by one walk item. -/
def itemSize : Item → Nat
  | .opt _ _ => 2
  | .bool _ => 1
  | .unk _ => 1

theorem itemTokens_length (items : List Item) :
    (itemTokens items).length = (items.map itemSize).sum := by
  induction items with
  | nil => rfl
  | cons it rest ih =>
    cases it with
    | opt o v =>
      simp only [itemTokens, List.length_cons, List.map_cons, List.sum_cons, itemSize, ih]
      omega
    | bool b =>
      simp only [itemTokens, List.length_cons, List.map_cons, List.sum_cons, itemSize, ih]
      omega
    | unk t =>
      simp only [itemTokens, List.length_cons, List.map_cons, List.sum_cons, itemSize, ih]
      omega

/- ### Lemmas about make_default_args -/

theorem foldl_setVal_vals_ne {α : Type} (key : α → String) (val : α → EAValue)
    (l : List α) (n : String) :
    (∀ x ∈ l, key x ≠ n) → ∀ a : ArgsT,
    (l.foldl (fun acc y => setVal acc (key y) (val y)) a).vals n = a.vals n := by
  induction l with
  | nil => intro _ a; rfl
  | cons x t ih =>
    intro h a
    show (t.foldl _ (setVal a (key x) (val x))).vals n = a.vals n
    rw [ih (fun y hy => h y (List.mem_cons_of_mem x hy)) _]
    rw [setVal_vals, if_neg (fun hh => h x (List.mem_cons_self _ _) hh.symm)]

theorem foldl_setVal_vals_mem {α : Type} (key : α → String) (val : α → EAValue)
    (l : List α) {x : α} :
    (l.map key).Nodup → x ∈ l → ∀ a : ArgsT,
    (l.foldl (fun acc y => setVal acc (key y) (val y)) a).vals (key x) = val x := by
  induction l with
  | nil => intro _ hx; cases hx
  | cons y t ih =>
    intro hnd hx a
    show (t.foldl _ (setVal a (key y) (val y))).vals (key x) = val x
    rcases List.mem_cons.mp hx with rfl | hx2
    · have hne : ∀ z ∈ t, key z ≠ key x := fun z hz heq =>
        (List.nodup_cons.mp hnd).1 (heq ▸ List.mem_map_of_mem key hz)
      rw [foldl_setVal_vals_ne key val t (key x) hne _, setVal_vals, if_pos rfl]
    · exact ih (List.nodup_cons.mp hnd).2 hx2 _

theorem foldl_setVal_bools {α : Type} (key : α → String) (val : α → EAValue)
    (l : List α) (n : String) :
    ∀ a : ArgsT, (l.foldl (fun acc y => setVal acc (key y) (val y)) a).bools n = a.bools n := by
  induction l with
  | nil => intro a; rfl
  | cons y t ih => intro a; exact ih _

theorem foldl_setBool_vals (l : List BoolArg) (n : String) :
    ∀ a : ArgsT, (l.foldl (fun acc b => setBool acc b.name false) a).vals n = a.vals n := by
  induction l with
  | nil => intro a; rfl
  | cons b t ih => intro a; exact ih _

theorem foldl_setBool_false_bools (l : List BoolArg) (n : String) :
    ∀ a : ArgsT, (∀ m, a.bools m = false) →
    (l.foldl (fun acc b => setBool acc b.name false) a).bools n = false := by
  induction l with
  | nil => intro a ha; exact ha n
  | cons b t ih =>
    intro a ha
    refine ih _ (fun m => ?_)
    rw [setBool_bools]
    by_cases hm : m = b.name
    · rw [if_pos hm]
    · rw [if_neg hm]
      exact ha m

theorem make_default_args_req (d : DeclSet) (hwf : d.Wellformed) {r : ReqArg}
    (hr : r ∈ d.required) : (make_default_args d).vals r.name = r.zero := by
  have e1 : (make_default_args d).vals r.name =
      (d.optional.foldl (fun a o => setVal a o.name o.default)
        (d.required.foldl (fun a x => setVal a x.name x.zero) argsInit)).vals r.name :=
    foldl_setBool_vals d.booleans r.name _
  have e2 : (d.optional.foldl (fun a o => setVal a o.name o.default)
        (d.required.foldl (fun a x => setVal a x.name x.zero) argsInit)).vals r.name =
      (d.required.foldl (fun a x => setVal a x.name x.zero) argsInit).vals r.name :=
    foldl_setVal_vals_ne OptArg.name OptArg.default d.optional r.name
      (fun o ho => (hwf.req_opt_names_disjoint hr ho).symm) _
  have e3 : (d.required.foldl (fun a x => setVal a x.name x.zero) argsInit).vals r.name
      = r.zero :=
    foldl_setVal_vals_mem ReqArg.name ReqArg.zero d.required hwf.req_names_nodup hr _
  exact e1.trans (e2.trans e3)

theorem make_default_args_opt (d : DeclSet) (hwf : d.Wellformed) {o : OptArg}
    (ho : o ∈ d.optional) : (make_default_args d).vals o.name = o.default := by
  have e1 : (make_default_args d).vals o.name =
      (d.optional.foldl (fun a x => setVal a x.name x.default)
        (d.required.foldl (fun a x => setVal a x.name x.zero) argsInit)).vals o.name :=
    foldl_setBool_vals d.booleans o.name _
  have e2 : (d.optional.foldl (fun a x => setVal a x.name x.default)
        (d.required.foldl (fun a x => setVal a x.name x.zero) argsInit)).vals o.name
      = o.default :=
    foldl_setVal_vals_mem OptArg.name OptArg.default d.optional hwf.opt_names_nodup ho _
  exact e1.trans e2

theorem make_default_args_bools (d : DeclSet) (n : String) :
    (make_default_args d).bools n = false := by
  refine foldl_setBool_false_bools d.booleans n _ (fun m => ?_)
  have e1 : (d.optional.foldl (fun a x => setVal a x.name x.default)
      (d.required.foldl (fun a x => setVal a x.name x.zero) argsInit)).bools m =
      (d.required.foldl (fun a x => setVal a x.name x.zero) argsInit).bools m :=
    foldl_setVal_bools OptArg.name OptArg.default d.optional m _
  have e2 : (d.required.foldl (fun a x => setVal a x.name x.zero) argsInit).bools m
      = argsInit.bools m :=
    foldl_setVal_bools ReqArg.name ReqArg.zero d.required m _
  exact e1.trans e2

/- ### Assembling parse_args -/

theorem parse_args_reaches_walk (d : DeclSet) (prog : String) {reqToks : List String}
    (hreq : List.Forall₂ (fun r t => (r.parser t).2 = true) d.required reqToks)
    (tail : List String) (args : ArgsT) :
    parse_args d (some (prog :: (reqToks ++ tail))) args =
      parseWalk d tail (applyReqs args d.required reqToks) := by
  have hlen := hreq.length_eq
  show (if (prog :: (reqToks ++ tail)).length < 1 + d.required.length then
      (⟨false, args, []⟩ : ParseResult)
    else
      match parseRequired d.required ((prog :: (reqToks ++ tail)).drop 1) args with
      | (args1, none) => ⟨false, args1, []⟩
      | (args1, some rest) => parseWalk d rest args1) = _
  rw [if_neg]
  · show (match parseRequired d.required (reqToks ++ tail) args with
      | (args1, none) => (⟨false, args1, []⟩ : ParseResult)
      | (args1, some rest) => parseWalk d rest args1) = _
    rw [parseRequired_append hreq tail args]
  · simp only [List.length_cons, List.length_append]
    omega

theorem parse_args_items (d : DeclSet) (hwf : d.Wellformed) (prog : String)
    {reqToks : List String}
    (hreq : List.Forall₂ (fun r t => (r.parser t).2 = true) d.required reqToks)
    (items : List Item) (hv : ∀ it ∈ items, ItemValid d it) (args : ArgsT) :
    parse_args d (some (prog :: (reqToks ++ itemTokens items))) args =
      ⟨true, applyItems (applyReqs args d.required reqToks) items, unkTokens items⟩ := by
  rw [parse_args_reaches_walk d prog hreq (itemTokens items) args]
  exact parseWalk_itemTokens d hwf items hv _

/- ### Lemmas about the help column width -/

theorem foldl_if_max {α : Type} (f : α → Nat) (l : List α) :
    ∀ a : Nat, l.foldl (fun m x => if f x > m then f x else m) a
      = max a ((l.map f).foldr max 0) := by
  induction l with
  | nil => intro a; simp
  | cons x t ih =>
    intro a
    show t.foldl _ (if f x > a then f x else a) = _
    rw [ih _]
    have h1 : (if f x > a then f x else a) = max a (f x) := by
      by_cases h : f x > a
      · rw [if_pos h, Nat.max_eq_right (Nat.le_of_lt h)]
      · rw [if_neg h, Nat.max_eq_left (Nat.le_of_not_lt h)]
    rw [h1]
    show max (max a (f x)) ((t.map f).foldr max 0) = max a (((x :: t).map f).foldr max 0)
    rw [List.map_cons, List.foldr_cons, Nat.max_assoc]

theorem mem_le_foldr_max {l : List Nat} {x : Nat} (h : x ∈ l) : x ≤ l.foldr max 0 := by
  induction l with
  | nil => cases h
  | cons a t ih =>
    show x ≤ max a (t.foldr max 0)
    rcases List.mem_cons.mp h with rfl | h2
    · exact Nat.le_max_left _ _
    · exact Nat.le_trans (ih h2) (Nat.le_max_right _ _)

theorem foldr_max_init (l : List Nat) : ∀ z : Nat, l.foldr max z = max (l.foldr max 0) z := by
  induction l with
  | nil => intro z; simp
  | cons a t ih =>
    intro z
    show max a (t.foldr max z) = max (max a (t.foldr max 0)) z
    rw [ih z, Nat.max_assoc]

theorem help_max_width_eq (d : DeclSet) :
    help_max_width d = ((d.required.map reqWidth ++ d.optional.map optWidth
      ++ d.booleans.map boolWidth).foldr max 0) := by
  have hL : help_max_width d =
      max (max (max 0 ((d.required.map reqWidth).foldr max 0))
          ((d.optional.map optWidth).foldr max 0))
        ((d.booleans.map boolWidth).foldr max 0) := by
    show d.booleans.foldl _ (d.optional.foldl _ (d.required.foldl _ 0)) = _
    rw [foldl_if_max reqWidth, foldl_if_max optWidth, foldl_if_max boolWidth]
  have hR : ((d.required.map reqWidth ++ d.optional.map optWidth
      ++ d.booleans.map boolWidth).foldr max 0) =
      max ((d.required.map reqWidth).foldr max 0)
        (max ((d.optional.map optWidth).foldr max 0)
          ((d.booleans.map boolWidth).foldr max 0)) := by
    rw [List.foldr_append, List.foldr_append,
      foldr_max_init (d.optional.map optWidth) ((d.booleans.map boolWidth).foldr max 0),
      foldr_max_init (d.required.map reqWidth)]
  rw [hL, hR, Nat.zero_max, Nat.max_assoc]

theorem spaces_length (n : Nat) : (spaces n).length = n := by
  simp [spaces, String.length]

theorem reqWidth_le (d : DeclSet) {r : ReqArg} (hr : r ∈ d.required) :
    reqWidth r ≤ help_max_width d := by
  rw [help_max_width_eq]
  exact mem_le_foldr_max (List.mem_append_left _
    (List.mem_append_left _ (List.mem_map_of_mem reqWidth hr)))

theorem optWidth_le (d : DeclSet) {o : OptArg} (ho : o ∈ d.optional) :
    optWidth o ≤ help_max_width d := by
  rw [help_max_width_eq]
  exact mem_le_foldr_max (List.mem_append_left _
    (List.mem_append_right _ (List.mem_map_of_mem optWidth ho)))

theorem boolWidth_le (d : DeclSet) {b : BoolArg} (hb : b ∈ d.booleans) :
    boolWidth b ≤ help_max_width d := by
  rw [help_max_width_eq]
  exact mem_le_foldr_max (List.mem_append_right _ (List.mem_map_of_mem boolWidth hb))

theorem help_left_required_length (d : DeclSet) {r : ReqArg} (hr : r ∈ d.required) :
    (help_left_required (help_max_width d) r).length = help_max_width d := by
  have hle := reqWidth_le d hr
  simp only [reqWidth] at hle
  simp only [help_left_required, String.length_append, spaces_length]
  have h1 : ("<" : String).length = 1 := rfl
  have h2 : (">" : String).length = 1 := rfl
  rw [h1, h2]
  omega

theorem help_left_optional_length (d : DeclSet) {o : OptArg} (ho : o ∈ d.optional) :
    (help_left_optional (help_max_width d) o).length = help_max_width d := by
  have hle := optWidth_le d ho
  simp only [optWidth] at hle
  simp only [help_left_optional, String.length_append, spaces_length]
  have h1 : (" <" : String).length = 2 := rfl
  have h2 : (">" : String).length = 1 := rfl
  rw [h1, h2]
  omega

theorem help_left_bool_length (d : DeclSet) {b : BoolArg} (hb : b ∈ d.booleans) :
    (help_left_bool (help_max_width d) b).length = help_max_width d := by
  have hle := boolWidth_le d hb
  simp only [boolWidth] at hle
  simp only [help_left_bool, String.length_append, spaces_length]
  omega

/- ### Claim theorems -/

/-- Claim C2: parse_args fails in exactly the two arity situations the
spec names.  First conjunct: a NULL argv fails with the container
untouched.  Second conjunct: an argv of length below
1 + count(Required), the program-name slot included, fails with the
container untouched (this also covers the argc = 0 check of the source).
Third conjunct: a declared optional flag standing as the last token of
the sequence fails, and the returned container is exactly the state
reached before the dangling flag was examined, so no converter was
invoked for that flag. -/
theorem parse_args_arity_failures (d : DeclSet) (hwf : d.Wellformed) :
    (∀ args : ArgsT, parse_args d none args = ⟨false, args, []⟩)
    ∧ (∀ (l : List String) (args : ArgsT), l.length < 1 + d.required.length →
        parse_args d (some l) args = ⟨false, args, []⟩)
    ∧ (∀ (prog : String) (reqToks : List String) (items : List Item) (o : OptArg)
        (args : ArgsT),
        List.Forall₂ (fun r t => (r.parser t).2 = true) d.required reqToks →
        (∀ it ∈ items, ItemValid d it) →
        o ∈ d.optional →
        parse_args d (some (prog :: (reqToks ++ (itemTokens items ++ [o.flag])))) args
          = ⟨false, applyItems (applyReqs args d.required reqToks) items,
              unkTokens items⟩) := by
  refine ⟨fun args => rfl, fun l args hl => ?_,
    fun prog reqToks items o args hreq hv ho => ?_⟩
  · show (if l.length < 1 + d.required.length then (⟨false, args, []⟩ : ParseResult)
      else match parseRequired d.required (l.drop 1) args with
        | (args1, none) => ⟨false, args1, []⟩
        | (args1, some rest) => parseWalk d rest args1) = ⟨false, args, []⟩
    rw [if_pos hl]
  · rw [parse_args_reaches_walk d prog hreq (itemTokens items ++ [o.flag]) args]
    exact parseWalk_items_dangling d hwf items ho hv _

/-- Witness for C2: with the example declaration set (one required int),
the token sequence prog 5 --name ends with the optional flag --name and
parse_args fails leaving the container at the post-required state. -/
theorem parse_args_arity_failures_witness :
    exDecl.Wellformed
    ∧ List.Forall₂ (fun r t => (r.parser t).2 = true) exDecl.required ["5"]
    ∧ exOptName ∈ exDecl.optional
    ∧ parse_args exDecl (some ["prog", "5", "--name"]) (make_default_args exDecl)
      = ⟨false, applyItems (applyReqs (make_default_args exDecl) exDecl.required ["5"]) [],
          unkTokens []⟩ :=
  ⟨by decide, List.Forall₂.cons rfl List.Forall₂.nil, List.mem_cons_self _ _,
   (parse_args_arity_failures exDecl (by decide)).2.2 "prog" ["5"] [] exOptName
     (make_default_args exDecl) (List.Forall₂.cons rfl List.Forall₂.nil)
     (fun it hit => absurd hit (List.not_mem_nil it)) (List.mem_cons_self _ _)⟩

/-- Claim C5: the leading-minus rejection of the unsigned converters
(first conjunct, for every width bound) and, per width class, acceptance
of the decimal boundary tokens and rejection of the tokens one unit
beyond, at the LP64 limits the source takes from limits.h. -/
theorem integer_converter_bounds :
    (∀ (maxval : Nat) (s : String) (t : List Char), skipLeading s.data = '-' :: t →
        easyargs_parse_unsigned maxval (some s) = (0, false))
    ∧ easyargs_parse_int (some "2147483647") = (2147483647, true)
    ∧ easyargs_parse_int (some "2147483648") = (0, false)
    ∧ easyargs_parse_int (some "-2147483648") = (-2147483648, true)
    ∧ easyargs_parse_int (some "-2147483649") = (0, false)
    ∧ easyargs_parse_long (some "9223372036854775807") = (9223372036854775807, true)
    ∧ easyargs_parse_long (some "9223372036854775808") = (0, false)
    ∧ easyargs_parse_long (some "-9223372036854775808") = (-9223372036854775808, true)
    ∧ easyargs_parse_long (some "-9223372036854775809") = (0, false)
    ∧ easyargs_parse_llong (some "9223372036854775807") = (9223372036854775807, true)
    ∧ easyargs_parse_llong (some "9223372036854775808") = (0, false)
    ∧ easyargs_parse_llong (some "-9223372036854775808") = (-9223372036854775808, true)
    ∧ easyargs_parse_llong (some "-9223372036854775809") = (0, false)
    ∧ easyargs_parse_uint (some "4294967295") = (4294967295, true)
    ∧ easyargs_parse_uint (some "4294967296") = (0, false)
    ∧ easyargs_parse_ulong (some "18446744073709551615") = (18446744073709551615, true)
    ∧ easyargs_parse_ulong (some "18446744073709551616") = (0, false)
    ∧ easyargs_parse_ullong (some "18446744073709551615") = (18446744073709551615, true)
    ∧ easyargs_parse_ullong (some "18446744073709551616") = (0, false)
    ∧ easyargs_parse_size_t (some "18446744073709551615") = (18446744073709551615, true)
    ∧ easyargs_parse_size_t (some "18446744073709551616") = (0, false) := by
  refine ⟨?_, rfl, rfl, rfl, rfl, rfl, rfl, rfl, rfl, rfl, rfl, rfl, rfl, rfl, rfl,
    rfl, rfl, rfl, rfl, rfl, rfl⟩
  intro maxval s t h
  show (match skipLeading s.data with
    | [] => ((0 : Nat), false)
    | c :: cs =>
      if c == '-' then (0, false)
      else
        let r := strtoullModel (c :: cs)
        if r.2.2 ≠ [] then (0, false)
        else if r.2.1 = true ∨ r.1 > maxval then (0, false)
        else (r.1, true)) = (0, false)
  rw [h]
  rfl

/-- Witness for C5: the token -5 has a leading minus sign after
whitespace skipping and is rejected by the unsigned int converter. -/
theorem integer_converter_bounds_witness :
    skipLeading (" -5".data) = '-' :: ['5']
    ∧ easyargs_parse_unsigned UINT_MAX (some " -5") = (0, false) :=
  ⟨by decide, integer_converter_bounds.1 UINT_MAX " -5" ['5'] (by decide)⟩

/-- Claim C6: make_default_args is total (it always succeeds); the
container it builds holds the type's zero value in every required field,
the declared default in every optional field, and false in every boolean
field; being a deterministic function of the declaration set, two
invocations give containers equal in every field. -/
theorem make_default_args_spec (d : DeclSet) (hwf : d.Wellformed) :
    (∀ r ∈ d.required, (make_default_args d).vals r.name = r.zero)
    ∧ (∀ o ∈ d.optional, (make_default_args d).vals o.name = o.default)
    ∧ (∀ b ∈ d.booleans, (make_default_args d).bools b.name = false)
    ∧ make_default_args d = make_default_args d :=
  ⟨fun _ hr => make_default_args_req d hwf hr,
   fun _ ho => make_default_args_opt d hwf ho,
   fun b _ => make_default_args_bools d b.name,
   rfl⟩

/-- Witness for C6 at the example declaration set. -/
theorem make_default_args_spec_witness :
    exDecl.Wellformed
    ∧ (make_default_args exDecl).vals "count" = EAValue.vInt 0
    ∧ (make_default_args exDecl).vals "name" = EAValue.vStr (some "anon")
    ∧ (make_default_args exDecl).bools "verbose" = false :=
  ⟨by decide,
   (make_default_args_spec exDecl (by decide)).1 exReq (List.mem_cons_self _ _),
   (make_default_args_spec exDecl (by decide)).2.1 exOptName (List.mem_cons_self _ _),
   (make_default_args_spec exDecl (by decide)).2.2.1 exBoolVerbose (List.mem_cons_self _ _)⟩

/-- Claim C7: the column width print_help aligns descriptions to equals
the maximum over all descriptors of label.length + 2 for required,
flag.length + 1 + label.length + 2 for optional, and flag.length for
boolean descriptors; every ARGUMENTS and OPTIONS line pads its left part
to exactly this single shared width before the four-space gap and the
description. -/
theorem print_help_column_width (d : DeclSet) :
    help_max_width d = ((d.required.map reqWidth ++ d.optional.map optWidth
      ++ d.booleans.map boolWidth).foldr max 0)
    ∧ (∀ r ∈ d.required,
        (help_left_required (help_max_width d) r).length = help_max_width d
        ∧ help_required_line (help_max_width d) r
          = "    " ++ help_left_required (help_max_width d) r ++ "    " ++ r.description)
    ∧ (∀ o ∈ d.optional, ∀ fmtDefault : String,
        (help_left_optional (help_max_width d) o).length = help_max_width d
        ∧ help_optional_line (help_max_width d) o fmtDefault
          = "    " ++ help_left_optional (help_max_width d) o ++ "    " ++ o.description
            ++ " (default: " ++ fmtDefault ++ ")")
    ∧ (∀ b ∈ d.booleans,
        (help_left_bool (help_max_width d) b).length = help_max_width d
        ∧ help_bool_line (help_max_width d) b
          = "    " ++ help_left_bool (help_max_width d) b ++ "    " ++ b.description) :=
  ⟨help_max_width_eq d,
   fun _ hr => ⟨help_left_required_length d hr, rfl⟩,
   fun _ ho _ => ⟨help_left_optional_length d ho, rfl⟩,
   fun _ hb => ⟨help_left_bool_length d hb, rfl⟩⟩

/-- Witness for C7 at the example declaration set: --name with label
name contributes the maximal width 13 and every left column part has
that length. -/
theorem print_help_column_width_witness :
    exReq ∈ exDecl.required
    ∧ (help_left_required (help_max_width exDecl) exReq).length = help_max_width exDecl
    ∧ exOptName ∈ exDecl.optional
    ∧ (help_left_optional (help_max_width exDecl) exOptName).length = help_max_width exDecl
    ∧ exBoolVerbose ∈ exDecl.booleans
    ∧ (help_left_bool (help_max_width exDecl) exBoolVerbose).length = help_max_width exDecl :=
  ⟨List.mem_cons_self _ _,
   ((print_help_column_width exDecl).2.1 exReq (List.mem_cons_self _ _)).1,
   List.mem_cons_self _ _,
   (((print_help_column_width exDecl).2.2.1 exOptName (List.mem_cons_self _ _)) "%s").1,
   List.mem_cons_self _ _,
   ((print_help_column_width exDecl).2.2.2 exBoolVerbose (List.mem_cons_self _ _)).1⟩

/-- Claim C8: every scalar converter, handed a NULL text pointer, sets
the success flag false and returns the zero value of its type without
reading the pointer; the converters are total functions of their input
(the model is total by construction, mirroring that the C routines have
no abort or exception path). -/
theorem converter_null_safety :
    easyargs_parse_str none = (none, false)
    ∧ easyargs_parse_char none = (Char.ofNat 0, false)
    ∧ (∀ maxval : Nat, easyargs_parse_unsigned maxval none = (0, false))
    ∧ (∀ minval maxval : Int, easyargs_parse_signed minval maxval none = (0, false))
    ∧ (∀ (α : Type) (zero : α) (scanner : List Char → α × Bool × List Char),
        easyargs_parse_floating zero scanner none = (zero, false)) :=
  ⟨rfl, rfl, fun _ => rfl, fun _ _ => rfl, fun _ _ _ => rfl⟩

/-- Claim C10: a token matching no declared optional or boolean flag
leaves every container field untouched: the walk continues on the
remaining tokens from exactly the state it had before examining the
token, and only the warning naming the token is added. -/
theorem unknown_token_frame (d : DeclSet) (tok : String) (rest : List String)
    (args : ArgsT)
    (hopt : ∀ o ∈ d.optional, o.flag ≠ tok)
    (hbool : ∀ b ∈ d.booleans, b.flag ≠ tok) :
    parseWalk d (tok :: rest) args
      = ⟨(parseWalk d rest args).success, (parseWalk d rest args).args,
          tok :: (parseWalk d rest args).warnings⟩ :=
  parseWalk_cons_unk d hopt hbool rest args

/-- Witness for C10: --unknownflag matches no flag of the example
declaration set. -/
theorem unknown_token_frame_witness :
    (∀ o ∈ exDecl.optional, o.flag ≠ "--unknownflag")
    ∧ (∀ b ∈ exDecl.booleans, b.flag ≠ "--unknownflag")
    ∧ parseWalk exDecl ["--unknownflag", "--verbose"] (make_default_args exDecl)
      = ⟨(parseWalk exDecl ["--verbose"] (make_default_args exDecl)).success,
          (parseWalk exDecl ["--verbose"] (make_default_args exDecl)).args,
          "--unknownflag" :: (parseWalk exDecl ["--verbose"]
            (make_default_args exDecl)).warnings⟩ :=
  ⟨by decide, by decide,
   unknown_token_frame exDecl "--unknownflag" ["--verbose"] (make_default_args exDecl)
     (by decide) (by decide)⟩

/-- Claim C1, amended: for a wellformed declaration set and tokens
consisting of the program name, one successfully converting token per
required descriptor in declared order, and then any sequence of declared
optional flag-token/value pairs with converting values (each declared
optional supplied with one value) and declared boolean flag tokens,
parse_args from the default container succeeds; afterwards each required
field equals its token's converted value, each omitted optional field
equals its declared default, each supplied optional field equals the
converted value of the token following its flag, and each boolean field
is true exactly when its flag token appears in flag position among the
walk items.  The amendment (forced by the counterexample below) is the
last clause: the original claim said "appears among the tokens", but a
boolean flag string standing in the value position of a preceding
optional flag is consumed as that value and does not set the field. -/
theorem parse_args_wellformed_success (d : DeclSet) (hwf : d.Wellformed)
    (prog : String) (reqToks : List String) (items : List Item)
    (hreq : List.Forall₂ (fun r t => (r.parser t).2 = true) d.required reqToks)
    (hv : ∀ it ∈ items, ItemValid d it)
    (_hnounk : ∀ it ∈ items, it.isUnk = false)
    (honce : ∀ o v v2, Item.opt o v ∈ items → Item.opt o v2 ∈ items → v = v2) :
    (parse_args d (some (prog :: (reqToks ++ itemTokens items)))
        (make_default_args d)).success = true
    ∧ (∀ r t, (r, t) ∈ d.required.zip reqToks →
        (parse_args d (some (prog :: (reqToks ++ itemTokens items)))
          (make_default_args d)).args.vals r.name = (r.parser t).1)
    ∧ (∀ o ∈ d.optional, (∀ v, Item.opt o v ∉ items) →
        (parse_args d (some (prog :: (reqToks ++ itemTokens items)))
          (make_default_args d)).args.vals o.name = o.default)
    ∧ (∀ (o : OptArg) (v : String), o ∈ d.optional → Item.opt o v ∈ items →
        (parse_args d (some (prog :: (reqToks ++ itemTokens items)))
          (make_default_args d)).args.vals o.name = (o.parser v).1)
    ∧ (∀ b ∈ d.booleans,
        ((parse_args d (some (prog :: (reqToks ++ itemTokens items)))
          (make_default_args d)).args.bools b.name = true ↔ Item.bool b ∈ items)) := by
  rw [parse_args_items d hwf prog hreq items hv (make_default_args d)]
  refine ⟨rfl, ?_, ?_, ?_, ?_⟩
  · intro r t hmem
    have hr : r ∈ d.required := (List.of_mem_zip hmem).1
    have h1 : (applyItems (applyReqs (make_default_args d) d.required reqToks) items).vals
        r.name = (applyReqs (make_default_args d) d.required reqToks).vals r.name :=
      applyItems_vals_ne items r.name (fun o v hm heq =>
        (hwf.req_opt_names_disjoint hr (hv (Item.opt o v) hm).1) heq.symm) _
    rw [h1]
    exact applyReqs_vals_mem d.required hwf.req_names_nodup reqToks hmem _
  · intro o ho hnot
    have h1 : (applyItems (applyReqs (make_default_args d) d.required reqToks) items).vals
        o.name = (applyReqs (make_default_args d) d.required reqToks).vals o.name :=
      applyItems_vals_ne items o.name (fun o2 v hm heq => by
        have ho2 : o2 ∈ d.optional := (hv (Item.opt o2 v) hm).1
        have : o2 = o := hwf.opt_name_inj ho2 ho heq
        subst this
        exact hnot v hm) _
    rw [h1]
    have h2 : (applyReqs (make_default_args d) d.required reqToks).vals o.name
        = (make_default_args d).vals o.name :=
      applyReqs_vals_ne d.required o.name
        (fun r hr => hwf.req_opt_names_disjoint hr ho) reqToks _
    rw [h2]
    exact make_default_args_opt d hwf ho
  · intro o v ho hm
    obtain ⟨pre, post, hsplit⟩ := List.append_of_mem hm
    have hv2 := hv
    rw [hsplit] at hv2 ⊢
    have honce2 : ∀ v2, Item.opt o v2 ∈ pre ++ Item.opt o v :: post → v2 = v := by
      intro v2 hm2
      exact honce o v2 v (hsplit ▸ hm2) hm
    rw [applyItems_append]
    show (applyItems (applyItem (applyItems _ pre) (Item.opt o v)) post).vals o.name
      = (o.parser v).1
    refine applyItems_vals_const post o.name ((o.parser v).1) ?_ _ ?_
    · intro o2 v2 hm2 hn
      have ho2 : o2 ∈ d.optional :=
        (hv2 (Item.opt o2 v2) (List.mem_append_right _ (List.mem_cons_of_mem _ hm2))).1
      have he : o2 = o := hwf.opt_name_inj ho2 ho hn
      subst he
      rw [honce2 v2 (List.mem_append_right _ (List.mem_cons_of_mem _ hm2))]
    · show (setVal (applyItems _ pre) o.name (o.parser v).1).vals o.name = (o.parser v).1
      rw [setVal_vals, if_pos rfl]
  · intro b hb
    rw [applyItems_bools items b.name _]
    have hbase : (applyReqs (make_default_args d) d.required reqToks).bools b.name
        = false := by
      have h1 := congrFun (applyReqs_bools d.required reqToks (make_default_args d)) b.name
      rw [h1]
      exact make_default_args_bools d b.name
    rw [hbase, Bool.false_or]
    rw [List.any_eq_true]
    constructor
    · rintro ⟨it, hit, hset⟩
      cases it with
      | opt o v => simp [Item.setsBool] at hset
      | bool b2 =>
        have hb2 : b2 ∈ d.booleans := hv (Item.bool b2) hit
        have hname : b2.name = b.name := by
          have := hset
          simp only [Item.setsBool, beq_iff_eq] at this
          exact this
        have : b2 = b := hwf.bool_name_inj hb2 hb hname
        subst this
        exact hit
      | unk t => simp [Item.setsBool] at hset
    · intro hmem
      exact ⟨Item.bool b, hmem, by simp [Item.setsBool]⟩

/-- Counterexample to C1 as stated: with the example declaration set and
tokens prog 5 --name --verbose, the tail is a single optional
flag-token/value pair (the string converter accepts the value token
--verbose), so the claim's premise holds; the token --verbose appears
among the tokens, yet the verbose field is false after the successful
parse, because the token was consumed as the value of --name. -/
theorem parse_args_boolean_value_token_cex :
    (parse_args exDecl (some ["prog", "5", "--name", "--verbose"])
      (make_default_args exDecl)).success = true
    ∧ "--verbose" ∈ ["prog", "5", "--name", "--verbose"]
    ∧ (parse_args exDecl (some ["prog", "5", "--name", "--verbose"])
        (make_default_args exDecl)).args.vals "name" = EAValue.vStr (some "--verbose")
    ∧ (parse_args exDecl (some ["prog", "5", "--name", "--verbose"])
        (make_default_args exDecl)).args.bools "verbose" = false :=
  ⟨rfl, by decide, rfl, rfl⟩

/-- Witness for C1 (amended) at the example declaration set with tokens
prog 5 --name Ada --verbose. -/
theorem parse_args_wellformed_success_witness :
    exDecl.Wellformed
    ∧ (parse_args exDecl (some ["prog", "5", "--name", "Ada", "--verbose"])
        (make_default_args exDecl)).success = true
    ∧ (parse_args exDecl (some ["prog", "5", "--name", "Ada", "--verbose"])
        (make_default_args exDecl)).args.bools "verbose" = true := by
  have h := parse_args_wellformed_success exDecl (by decide) "prog" ["5"]
    [Item.opt exOptName "Ada", Item.bool exBoolVerbose]
    (List.Forall₂.cons rfl List.Forall₂.nil)
    (by
      intro it hit
      rcases List.mem_cons.mp hit with rfl | hit2
      · exact ⟨List.mem_cons_self _ _, rfl⟩
      rcases List.mem_cons.mp hit2 with rfl | hit3
      · exact List.mem_cons_self _ _
      · cases hit3)
    (by decide)
    (by
      intro o v v2 h1 h2
      rcases List.mem_cons.mp h1 with he1 | h1b
      · rcases List.mem_cons.mp h2 with he2 | h2b
        · injection he1 with ho1 hv1
          injection he2 with ho2 hv2
          subst hv1; subst hv2; rfl
        · rcases List.mem_cons.mp h2b with he2 | h2c
          · cases he2
          · cases h2c
      · rcases List.mem_cons.mp h1b with he1 | h1c
        · cases he1
        · cases h1c)
  refine ⟨by decide, h.1, ?_⟩
  have hb := (h.2.2.2.2 exBoolVerbose (List.mem_cons_self _ _)).mpr
    (List.mem_cons_of_mem _ (List.mem_cons_self _ _))
  exact hb

/-- Claim C3: every post-required token matching no declared flag is
reported in a warning naming exactly that token and does not abort the
walk: a sequence that is otherwise valid but contains unknown tokens
still parses successfully, its warning list is exactly the unknown
tokens in order, and the resulting container equals the one produced by
the same sequence with the unknown tokens removed. -/
theorem parse_args_unknown_token_tolerance (d : DeclSet) (hwf : d.Wellformed)
    (prog : String) (reqToks : List String) (items : List Item) (args : ArgsT)
    (hreq : List.Forall₂ (fun r t => (r.parser t).2 = true) d.required reqToks)
    (hv : ∀ it ∈ items, ItemValid d it) :
    (parse_args d (some (prog :: (reqToks ++ itemTokens items))) args).success = true
    ∧ (parse_args d (some (prog :: (reqToks ++ itemTokens items))) args).warnings
      = unkTokens items
    ∧ (parse_args d (some (prog :: (reqToks ++ itemTokens items))) args).args
      = (parse_args d (some (prog :: (reqToks ++
          itemTokens (items.filter (fun it => !it.isUnk))))) args).args := by
  have hvf : ∀ it ∈ items.filter (fun it => !it.isUnk), ItemValid d it :=
    fun it hit => hv it (List.mem_of_mem_filter hit)
  rw [parse_args_items d hwf prog hreq items hv args,
    parse_args_items d hwf prog hreq (items.filter (fun it => !it.isUnk)) hvf args]
  exact ⟨rfl, rfl, applyItems_filter_unk items _⟩

/-- Witness for C3: the spec's example scenario 5, tokens
prog 5 --unknownflag --verbose. -/
theorem parse_args_unknown_token_tolerance_witness :
    exDecl.Wellformed
    ∧ (parse_args exDecl (some ["prog", "5", "--unknownflag", "--verbose"])
        (make_default_args exDecl)).success = true
    ∧ (parse_args exDecl (some ["prog", "5", "--unknownflag", "--verbose"])
        (make_default_args exDecl)).warnings = ["--unknownflag"] := by
  have h := parse_args_unknown_token_tolerance exDecl (by decide) "prog" ["5"]
    [Item.unk "--unknownflag", Item.bool exBoolVerbose] (make_default_args exDecl)
    (List.Forall₂.cons rfl List.Forall₂.nil)
    (by
      intro it hit
      rcases List.mem_cons.mp hit with rfl | hit2
      · exact ⟨by decide, by decide⟩
      rcases List.mem_cons.mp hit2 with rfl | hit3
      · exact List.mem_cons_self _ _
      · cases hit3)
  exact ⟨by decide, h.1, h.2.1⟩

/-- Claim C4: permuting the optional flag/value pairs and boolean flag
tokens of the post-required tail among themselves, with the required
tokens kept positionally first, yields a parse with the same success
outcome and a container equal in every field (the whole parse result,
warnings included, is equal). -/
theorem parse_args_order_independence (d : DeclSet) (hwf : d.Wellformed)
    (prog : String) (reqToks : List String) (items items2 : List Item)
    (hperm : items.Perm items2)
    (hreq : List.Forall₂ (fun r t => (r.parser t).2 = true) d.required reqToks)
    (hv : ∀ it ∈ items, ItemValid d it)
    (hnounk : ∀ it ∈ items, it.isUnk = false)
    (honce : ∀ o v v2, Item.opt o v ∈ items → Item.opt o v2 ∈ items → v = v2) :
    parse_args d (some (prog :: (reqToks ++ itemTokens items))) (make_default_args d)
      = parse_args d (some (prog :: (reqToks ++ itemTokens items2)))
          (make_default_args d) := by
  have hv2 : ∀ it ∈ items2, ItemValid d it := fun it hit => hv it (hperm.mem_iff.mpr hit)
  rw [parse_args_items d hwf prog hreq items hv (make_default_args d),
    parse_args_items d hwf prog hreq items2 hv2 (make_default_args d)]
  have hargs : applyItems (applyReqs (make_default_args d) d.required reqToks) items
      = applyItems (applyReqs (make_default_args d) d.required reqToks) items2 :=
    applyItems_perm hperm
      (fun o v o2 v2 hm hm2 hn => by
        have ho : o ∈ d.optional := (hv _ hm).1
        have ho2 : o2 ∈ d.optional := (hv _ hm2).1
        have heq := hwf.opt_name_inj ho ho2 hn
        subst heq
        rw [honce o v v2 hm hm2]) _
  have hwarn : unkTokens items = unkTokens items2 := by
    rw [unkTokens_eq_nil items hnounk,
      unkTokens_eq_nil items2 (fun it hit => hnounk it (hperm.mem_iff.mpr hit))]
  rw [hargs, hwarn]

/-- Witness for C4: swapping --name Ada and --verbose in the tail gives
equal parse results. -/
theorem parse_args_order_independence_witness :
    exDecl.Wellformed
    ∧ parse_args exDecl (some ["prog", "5", "--name", "Ada", "--verbose"])
        (make_default_args exDecl)
      = parse_args exDecl (some ["prog", "5", "--verbose", "--name", "Ada"])
          (make_default_args exDecl) := by
  refine ⟨by decide, ?_⟩
  have h := parse_args_order_independence exDecl (by decide) "prog" ["5"]
    [Item.opt exOptName "Ada", Item.bool exBoolVerbose]
    [Item.bool exBoolVerbose, Item.opt exOptName "Ada"]
    (List.Perm.swap (Item.bool exBoolVerbose) (Item.opt exOptName "Ada") [])
    (List.Forall₂.cons rfl List.Forall₂.nil)
    (by
      intro it hit
      rcases List.mem_cons.mp hit with rfl | hit2
      · exact ⟨List.mem_cons_self _ _, rfl⟩
      rcases List.mem_cons.mp hit2 with rfl | hit3
      · exact List.mem_cons_self _ _
      · cases hit3)
    (by decide)
    (by
      intro o v v2 h1 h2
      rcases List.mem_cons.mp h1 with he1 | h1b
      · rcases List.mem_cons.mp h2 with he2 | h2b
        · injection he1 with ho1 hv1
          injection he2 with ho2 hv2
          subst hv1; subst hv2; rfl
        · rcases List.mem_cons.mp h2b with he2 | h2c
          · cases he2
          · cases h2c
      · rcases List.mem_cons.mp h1b with he1 | h1c
        · cases he1
        · cases h1c)
  exact h

/-- Claim C9: when the same declared optional flag occurs several times
in the post-required walk, every occurrence has its following value token
converted, so the parse succeeds only when all occurrences convert (first
conjunct, with the last occurrence's converted value ending up in the
field) and fails as soon as any occurrence's value fails to convert
(second conjunct). -/
theorem optional_flag_repeat_last_wins (d : DeclSet) (hwf : d.Wellformed)
    (prog : String) (reqToks : List String)
    (hreq : List.Forall₂ (fun r t => (r.parser t).2 = true) d.required reqToks) :
    (∀ (pre post : List Item) (o : OptArg) (v : String),
      o ∈ d.optional →
      (∀ it ∈ pre ++ Item.opt o v :: post, ItemValid d it) →
      (∀ v2, Item.opt o v2 ∉ post) →
      (parse_args d (some (prog :: (reqToks ++ itemTokens (pre ++ Item.opt o v :: post))))
          (make_default_args d)).success = true
      ∧ (parse_args d (some (prog :: (reqToks ++
            itemTokens (pre ++ Item.opt o v :: post))))
          (make_default_args d)).args.vals o.name = (o.parser v).1)
    ∧ (∀ items : List Item, (∀ it ∈ items, ItemShape d it) →
        (∃ o v, Item.opt o v ∈ items ∧ (o.parser v).2 = false) →
        (parse_args d (some (prog :: (reqToks ++ itemTokens items)))
          (make_default_args d)).success = false) := by
  constructor
  · intro pre post o v ho hv hlast
    rw [parse_args_items d hwf prog hreq (pre ++ Item.opt o v :: post) hv
      (make_default_args d)]
    refine ⟨rfl, ?_⟩
    show (applyItems (applyReqs (make_default_args d) d.required reqToks)
      (pre ++ Item.opt o v :: post)).vals o.name = (o.parser v).1
    rw [applyItems_append]
    show (applyItems (applyItem (applyItems _ pre) (Item.opt o v)) post).vals o.name
      = (o.parser v).1
    refine applyItems_vals_const post o.name ((o.parser v).1) ?_ _ ?_
    · intro o2 v2 hm2 hn
      have ho2 : o2 ∈ d.optional := (hv (Item.opt o2 v2)
        (List.mem_append_right _ (List.mem_cons_of_mem _ hm2))).1
      have he : o2 = o := hwf.opt_name_inj ho2 ho hn
      subst he
      exact absurd hm2 (hlast v2)
    · show (setVal (applyItems _ pre) o.name (o.parser v).1).vals o.name = (o.parser v).1
      rw [setVal_vals, if_pos rfl]
  · intro items hs hex
    rw [parse_args_reaches_walk d prog hreq (itemTokens items) (make_default_args d)]
    exact parseWalk_items_fail d hwf items hs hex _

/-- Witness for C9: tokens prog 5 --name Ada --name Bob leave name holding
Bob, the value of the last occurrence. -/
theorem optional_flag_repeat_last_wins_witness :
    exDecl.Wellformed
    ∧ (parse_args exDecl (some ["prog", "5", "--name", "Ada", "--name", "Bob"])
        (make_default_args exDecl)).success = true
    ∧ (parse_args exDecl (some ["prog", "5", "--name", "Ada", "--name", "Bob"])
        (make_default_args exDecl)).args.vals "name" = EAValue.vStr (some "Bob") := by
  have h := (optional_flag_repeat_last_wins exDecl (by decide) "prog" ["5"]
    (List.Forall₂.cons rfl List.Forall₂.nil)).1
    [Item.opt exOptName "Ada"] [] exOptName "Bob" (List.mem_cons_self _ _)
    (by
      intro it hit
      rcases List.mem_cons.mp hit with rfl | hit2
      · exact ⟨List.mem_cons_self _ _, rfl⟩
      rcases List.mem_cons.mp hit2 with rfl | hit3
      · exact ⟨List.mem_cons_self _ _, rfl⟩
      · cases hit3)
    (fun v2 hmem => absurd hmem (List.not_mem_nil _))
  exact ⟨by decide, h.1, h.2⟩

end EasyArgs
